import Mathlib

/-!
Verification of the diagnostic parsing and deduplication engine of the
`run-clang-tidy` tooling (files `clang-tidy/tool/run-clang-tidy.py` and
`clang-tidy/tool/utility.py`).

Text is embedded as `List Char` (one Python `str` character per element).
Python semantics that the embedding fixes explicitly:
  * `str.__hash__` is an unspecified deterministic function of the string
    (randomized per process, but fixed within one run, which is the only
    scope in which the deduplication set lives).  It is modelled by an
    injective encoding of the string into an integer; 64-bit collisions of
    the real hash are not modelled (the source docstring itself treats them
    as "almost impossible" for non-malicious input).
  * `int.__hash__` is deterministic and modelled exactly:
    reduction modulo the Mersenne prime 2^61 - 1, sign-symmetric, with the
    value -1 mapped to -2.
  * regular expressions are compiled to specialised matching functions with
    the exact leftmost, greedy backtracking semantics of Python `re.match`
    for the three concrete patterns the program uses (checked against
    CPython on the corner cases: greedy `(.+)` takes the longest viable
    prefix, `[^\[]+` keeps a trailing space, an optional bracket group must
    extend to the end of the line, ...).  `.` does not match a newline;
    `\d` is modelled as the ASCII digits; the `$`-before-trailing-newline
    subtlety of Python is dropped because every caller feeds lines produced
    by `splitlines`/`rstrip`, which never end in a newline.
  * `str.rstrip`/`str.strip`/`str.splitlines` are modelled on the ASCII
    whitespace characters and the newline separator, which is all that
    clang-tidy output contains.
-/

/-- The characters Python `str.strip`/`str.rstrip` remove (ASCII part). -/
def isPySpace (c : Char) : Bool :=
  c = ' ' || c = '\t' || c = '\n' || c = '\r' || c = '\x0b' || c = '\x0c'

/-- Python `str.rstrip()`: drop trailing whitespace. -/
def rstrip (cs : List Char) : List Char :=
  (cs.reverse.dropWhile isPySpace).reverse

/-- Python `str.strip()`: drop leading and trailing whitespace. -/
def pstrip (cs : List Char) : List Char :=
  rstrip (cs.dropWhile isPySpace)

/-- Convenience: the character list of a string literal. -/
def chars (s : String) : List Char :=
  s.data

/-- Helper for `splitlines`: split the remaining input at each newline,
`cur` holds the (reversed) characters of the line being accumulated. -/
def splitlinesAux (cur : List Char) : List Char → List (List Char)
  | [] => [cur.reverse]
  | '\n' :: rest => cur.reverse :: splitlinesAux [] rest
  | c :: rest => splitlinesAux (c :: cur) rest

/-- Python `str.splitlines()` (newline separator): no trailing empty line
is produced for input that ends in a newline, and the empty string yields
no lines at all. -/
def splitlines (cs : List Char) : List (List Char) :=
  match cs with
  | [] => []
  | _ =>
    let ps := splitlinesAux [] cs
    if ps.getLast? = some [] then ps.dropLast else ps

/-- ASCII decimal digit (models `\d` as used by the diagnostic patterns). -/
def isDig (c : Char) : Bool :=
  '0' ≤ c && c ≤ '9'

/-- Python `int()` on a digit string. -/
def digitsVal (ds : List Char) : Nat :=
  ds.foldl (fun a c => 10 * a + (c.toNat - '0'.toNat)) 0

/-- Python `str()` of a non-negative integer. -/
def natRepr (n : Nat) : List Char :=
  Nat.toDigits 10 n

/-- The radix used by the injective string-hash model: one more than the
largest Unicode scalar value, so every character is a valid digit. -/
def charRadix : Nat := 1114112

/-- Model of Python `str.__hash__`: an unspecified deterministic reduction
of the string to an integer, modelled injectively as the radix-`charRadix`
value of the character sequence with a leading sentinel digit 1. -/
def pyStrHash (cs : List Char) : Int :=
  (Nat.ofDigits charRadix (cs.map Char.toNat ++ [1]) : Nat)

/-- Model of Python `int.__hash__`: reduction modulo 2^61 - 1,
sign-symmetric, and -1 is mapped to -2. -/
def pyIntHash (n : Int) : Int :=
  let m : Int := 2 ^ 61 - 1
  let r := if 0 ≤ n then n % m else -((-n) % m)
  if r = -1 then -2 else r

/-- Every character value is below the hash radix. -/
theorem char_toNat_lt_charRadix (c : Char) : c.toNat < charRadix := by
  have h := c.valid
  unfold UInt32.isValidChar Nat.isValidChar at h
  have : c.toNat = c.val.toNat := rfl
  unfold charRadix
  rcases h with h | ⟨_, h2⟩
  · omega
  · omega

/-- The string-hash model is injective: distinct strings get distinct
hash values. -/
theorem pyStrHash_injective {cs ds : List Char}
    (h : pyStrHash cs = pyStrHash ds) : cs = ds := by
  unfold pyStrHash at h
  have hnat : Nat.ofDigits charRadix (cs.map Char.toNat ++ [1]) =
      Nat.ofDigits charRadix (ds.map Char.toNat ++ [1]) := by
    exact_mod_cast h
  have hone : (1 : Nat) < charRadix := by norm_num [charRadix]
  have hlt : ∀ (l : List Char), ∀ x ∈ l.map Char.toNat ++ [1], x < charRadix := by
    intro l x hx
    rcases List.mem_append.mp hx with hx | hx
    · rcases List.mem_map.mp hx with ⟨c, _, rfl⟩
      exact char_toNat_lt_charRadix c
    · simp only [List.mem_singleton] at hx
      subst hx
      norm_num [charRadix]
  have hlast : ∀ (l : List Char) (hne : l.map Char.toNat ++ [1] ≠ []),
      (l.map Char.toNat ++ [1]).getLast hne ≠ 0 := by
    intro l hne
    rw [List.getLast_append]
    norm_num
  have hdig := congrArg (Nat.digits charRadix) hnat
  rw [Nat.digits_ofDigits charRadix hone _ (hlt cs) (hlast cs),
      Nat.digits_ofDigits charRadix hone _ (hlt ds) (hlast ds)] at hdig
  have hmap : cs.map Char.toNat = ds.map Char.toNat :=
    List.append_cancel_right hdig
  have hinj : Function.Injective Char.toNat := by
    intro a b hab
    have hval : a.val.toNat = b.val.toNat := hab
    have : a.val = b.val := by
      apply UInt32.toNat.inj hval
    exact Char.ext this
  exact List.map_injective_iff.mpr hinj hmap

/-- The fingerprint class `DiagEssence` (identical in `utility.py` and
`run-clang-tidy.py`): it stores the hash of the path, the line and column
numbers, the hash of the first diagnostic line and the hash of the
additional text, plus the precomputed object hash of the location triple. -/
structure DiagEssence where
  pathH : Int
  line : Int
  column : Int
  hashv : Int
  diagH : Int
  addH : Int
deriving DecidableEq, Repr

/-- Source `DiagEssence.__init__`: hash the textual parts, keep line/column, and
precompute the object hash from the sum of path hash, line and column. -/
def mkEssence (path : List Char) (line column : Int)
    (diag additional : List Char) : DiagEssence :=
  let p := pyStrHash path
  { pathH := p
    line := line
    column := column
    hashv := pyIntHash (p + line + column)
    diagH := pyStrHash diag
    addH := pyStrHash additional }

/-- Source `DiagEssence.__eq__`: compare line, column, path hash, diagnostic hash
and additional hash, in that order; the precomputed `_hash` is not
compared. -/
def essEq (a b : DiagEssence) : Bool :=
  a.line == b.line && a.column == b.column && a.pathH == b.pathH &&
    a.diagH == b.diagH && a.addH == b.addH

/-- Membership of a fingerprint in a Python `set` of fingerprints: some
stored element compares equal (the hash pre-check of the `set` is implied
because equal fingerprints always have equal location sums). -/
def essMem (e : DiagEssence) (s : List DiagEssence) : Bool :=
  s.any (fun x => essEq x e)

/-- The `Deduplication` class: a set of `DiagEssence` objects. -/
structure Deduplication where
  set : List DiagEssence
deriving DecidableEq, Repr

/-- Source `Deduplication.insert_and_query`: `true` plus insertion if the
fingerprint is new, `false` and no mutation otherwise. -/
def Deduplication.insert_and_query (dd : Deduplication) (e : DiagEssence) :
    Bool × Deduplication :=
  if essMem e dd.set then (false, dd) else (true, { set := e :: dd.set })

/-- The `Diagnostic` record of `run-clang-tidy.py`: source path, line,
column, first diagnostic line, and the additional text accumulated while
the diagnostic is in flight. -/
structure Diagnostic where
  path : List Char
  line : Nat
  column : Nat
  diag : List Char
  additional : List Char
deriving DecidableEq, Repr

/-- Source `Diagnostic.add_additional_line` (`run-clang-tidy.py`): append a
newline and the line to the additional text. -/
def Diagnostic.add_additional_line (d : Diagnostic) (line : List Char) :
    Diagnostic :=
  { d with additional := d.additional ++ '\n' :: line }

/-- Source `Diagnostic.get_essence`: fingerprint the record. -/
def Diagnostic.get_essence (d : Diagnostic) : DiagEssence :=
  mkEssence d.path (d.line : Int) (d.column : Int) d.diag d.additional

/-- Source `Diagnostic.__str__`: `path:line:col: diag` followed by the additional
text. -/
def Diagnostic.render (d : Diagnostic) : List Char :=
  d.path ++ ':' :: (natRepr d.line ++ ':' ::
    (natRepr d.column ++ ':' :: ' ' :: (d.diag ++ d.additional)))

/-- Consume one expected character from the front of the input. -/
def expectChar (c : Char) : List Char → Option (List Char)
  | x :: r => if x = c then some r else none
  | [] => none

/-- Consume a maximal non-empty run of decimal digits (the greedy `(\d+)`
of the header pattern; no shorter run can be viable because the following
literal is never a digit). -/
def takeDigits (l : List Char) : Option (List Char × List Char) :=
  if l.takeWhile isDig = [] then none else
    some (l.takeWhile isDig, l.dropWhile isDig)

/-- The `(error|warning): ` part of the single-invocation header pattern:
the alternatives are tried left to right, exactly one can apply. -/
def matchSev (r : List Char) : Option (List Char × List Char) :=
  if (chars ("error: ")).isPrefixOf r then some (chars ("error"), r.drop 7)
  else if (chars ("warning: ")).isPrefixOf r then
    some (chars ("warning"), r.drop 9)
  else none

/-- Everything of the single-invocation header pattern
`^(.+):(\d+):(\d+): (error|warning): (.*)$` after the path group:
returns (line digits, column digits, severity, message). -/
def matchTail (rest : List Char) :
    Option (List Char × List Char × List Char × List Char) := do
  let r ← expectChar ':' rest
  let (d1, r1) ← takeDigits r
  let r2 ← expectChar ':' r1
  let (d2, r3) ← takeDigits r2
  let r4 ← expectChar ':' r3
  let r5 ← expectChar ' ' r4
  let (sv, m) ← matchSev r5
  if m.all (fun c => c ≠ '\n') then some (d1, d2, sv, m) else none

/-- All splits of `pre ++ suf` that extend `pre`, in increasing prefix
length. -/
def splitsFrom (pre : List Char) : List Char → List (List Char × List Char)
  | [] => [(pre, [])]
  | c :: r => (pre, c :: r) :: splitsFrom (pre ++ [c]) r

/-- Try a matching function on each split in turn, returning the first
success (the splits are fed longest-prefix-first, which realises the
greedy backtracking of a leading `(.+)`). -/
def searchSplits (f : List Char → List Char → Option α) :
    List (List Char × List Char) → Option α
  | [] => none
  | (p, s) :: more =>
    match f p s with
    | some r => some r
    | none => searchSplits f more

/-- One candidate split for the single-invocation pattern: the path group
`(.+)` must be non-empty and free of newlines, the rest must match the
tail of the pattern. -/
def tryPathSplit (p rest : List Char) :
    Option (List Char × List Char × List Char × List Char × List Char) :=
  if p = [] then none
  else if p.all (fun c => c ≠ '\n') then
    (matchTail rest).map (fun (d1, d2, sv, m) => (p, d1, d2, sv, m))
  else none

/-- Source `ParseClangTidyDiagnostics._diag_re` applied with `re.match`: the
groups (path, line digits, column digits, severity, message) of
`^(.+):(\d+):(\d+): (error|warning): (.*)$`, with the leading `(.+)`
taking the longest viable prefix. -/
def diagMatch (cs : List Char) :
    Option (List Char × List Char × List Char × List Char × List Char) :=
  searchSplits tryPathSplit (splitsFrom [] cs).reverse

/-- Source `_diag_from_match`: build a `Diagnostic` from the match groups; the
digit groups go through `int()`, the stored first line is
`severity: message`. -/
def diag_from_match
    (g : List Char × List Char × List Char × List Char × List Char) :
    Diagnostic :=
  { path := g.1
    line := digitsVal g.2.1
    column := digitsVal g.2.2.1
    diag := g.2.2.2.1 ++ ':' :: ' ' :: g.2.2.2.2
    additional := [] }

/-- The state of one `ParseClangTidyDiagnostics` instance: the in-flight
diagnostic, the deduplication set and the list of unique diagnostics. -/
structure PState where
  current : Option Diagnostic
  dedup : Deduplication
  uniq : List Diagnostic
deriving DecidableEq, Repr

/-- Source `ParseClangTidyDiagnostics.__init__`. -/
def initParser : PState :=
  { current := none, dedup := { set := [] }, uniq := [] }

/-- Source method reset of `ParseClangTidyDiagnostics`: clear the in-flight
diagnostic and the unique list, keep the deduplication set. -/
def resetParser (st : PState) : PState :=
  { st with current := none, uniq := [] }

/-- Source `ParseClangTidyDiagnostics._register_diag`: if a diagnostic is in
flight and its fingerprint is new, append it to the unique list; the
in-flight diagnostic is left in place. -/
def register_diag (st : PState) : PState :=
  match st.current with
  | none => st
  | some d =>
    let q := st.dedup.insert_and_query d.get_essence
    if q.1 then { st with dedup := q.2, uniq := st.uniq ++ [d] }
    else { st with dedup := q.2 }

/-- Source `ParseClangTidyDiagnostics._parse_line` (the argument is the already
`rstrip`-ped line): a header match finalizes any in-flight diagnostic and
starts a new one; otherwise the line is appended to the in-flight
diagnostic if there is one, and discarded if not. -/
def parse_line (st : PState) (line : List Char) : PState :=
  match diagMatch line with
  | some g =>
    let st1 := register_diag st
    { st1 with current := some (diag_from_match g) }
  | none =>
    match st.current with
    | some d => { st with current := some (d.add_additional_line line) }
    | none => st

/-- The loop body of `_parse_lines`: each raw line is `rstrip`-ped before
being parsed. -/
def runLines (st : PState) (lines : List (List Char)) : PState :=
  lines.foldl (fun s l => parse_line s (rstrip l)) st

/-- Source `_parse_lines` without its entry assertion: parse every line, then
register the last in-flight diagnostic. -/
def parse_lines_run (st : PState) (lines : List (List Char)) : PState :=
  register_diag (runLines st lines)

/-- The `_parse_lines` entry assertion message. -/
def cleanStateMsg : String := "Parser not in a clean state to restart parsing"

/-- Source `_parse_lines` including its entry assertion: calling it while a
diagnostic from a prior call is still held raises an `AssertionError`. -/
def parse_lines_exc (st : PState) (lines : List (List Char)) :
    Except String PState :=
  if st.current.isSome then Except.error cleanStateMsg
  else Except.ok (parse_lines_run st lines)

/-- Source `ParseClangTidyDiagnostics.parse_string`: split the blob into lines
and feed them to `_parse_lines`. -/
def parse_string_exc (st : PState) (input : List Char) :
    Except String PState :=
  parse_lines_exc st (splitlines input)

/-- The assertion-free run of `parse_string`, used to name the state that
the successful call produces. -/
def parse_string_run (st : PState) (input : List Char) : PState :=
  parse_lines_run st (splitlines input)

/-- Fingerprint equality is reflexive. -/
theorem essEq_refl (e : DiagEssence) : essEq e e = true := by
  simp [essEq]

/-- Source `insert_and_query` never removes fingerprints. -/
theorem insert_and_query_mono (dd : Deduplication) (e x : DiagEssence)
    (h : essMem x dd.set = true) :
    essMem x (dd.insert_and_query e).2.set = true := by
  unfold Deduplication.insert_and_query
  split
  · exact h
  · simp only [essMem, List.any_cons]
    simp only [essMem] at h
    rw [h]
    simp

/-- After `insert_and_query` the queried fingerprint is in the set. -/
theorem insert_and_query_mem (dd : Deduplication) (e : DiagEssence) :
    essMem e (dd.insert_and_query e).2.set = true := by
  unfold Deduplication.insert_and_query
  split
  · assumption
  · simp [essMem, essEq_refl]

/-- A fingerprint already in the set makes `insert_and_query` a no-op. -/
theorem insert_and_query_of_mem (dd : Deduplication) (e : DiagEssence)
    (h : essMem e dd.set = true) :
    dd.insert_and_query e = (false, dd) := by
  unfold Deduplication.insert_and_query
  simp [h]

/-- Source `register_diag` never removes fingerprints from the set. -/
theorem register_diag_mono (st : PState) (x : DiagEssence)
    (h : essMem x st.dedup.set = true) :
    essMem x (register_diag st).dedup.set = true := by
  unfold register_diag
  cases st.current with
  | none => exact h
  | some d =>
    simp only
    split
    · exact insert_and_query_mono _ _ _ h
    · exact insert_and_query_mono _ _ _ h

/-- After `register_diag` the fingerprint of the in-flight diagnostic is
in the set. -/
theorem register_diag_mem (st : PState) (d : Diagnostic)
    (h : st.current = some d) :
    essMem d.get_essence (register_diag st).dedup.set = true := by
  unfold register_diag
  rw [h]
  simp only
  split
  · exact insert_and_query_mem _ _
  · exact insert_and_query_mem _ _

/-- If the fingerprint of the in-flight diagnostic is already in the set,
`register_diag` changes nothing. -/
theorem register_diag_of_mem (st : PState) (d : Diagnostic)
    (h : st.current = some d)
    (hm : essMem d.get_essence st.dedup.set = true) :
    register_diag st = st := by
  unfold register_diag
  rw [h]
  simp only [insert_and_query_of_mem _ _ hm, Bool.false_eq_true, if_false]
  rw [← h]

/-- Source `parse_line` never removes fingerprints from the set. -/
theorem parse_line_mono (st : PState) (l : List Char) (x : DiagEssence)
    (h : essMem x st.dedup.set = true) :
    essMem x (parse_line st l).dedup.set = true := by
  unfold parse_line
  cases diagMatch l with
  | some g => exact register_diag_mono _ _ h
  | none =>
    cases st.current with
    | some d => exact h
    | none => exact h

/-- Source `runLines` never removes fingerprints from the set. -/
theorem runLines_mono (lines : List (List Char)) :
    ∀ (st : PState) (x : DiagEssence), essMem x st.dedup.set = true →
    essMem x (runLines st lines).dedup.set = true := by
  induction lines with
  | nil => intro st x h; exact h
  | cons l ls ih =>
    intro st x h
    exact ih _ _ (parse_line_mono _ _ _ h)

/-- Source `parse_lines_run` never removes fingerprints from the set. -/
theorem parse_lines_run_mono (st : PState) (lines : List (List Char))
    (x : DiagEssence) (h : essMem x st.dedup.set = true) :
    essMem x (parse_lines_run st lines).dedup.set = true :=
  register_diag_mono _ _ (runLines_mono _ _ _ h)

/-- The in-flight diagnostic evolves as a function of the input lines
only: two states with the same in-flight diagnostic keep agreeing on it. -/
theorem parse_line_current_congr (s t : PState) (l : List Char)
    (h : s.current = t.current) :
    (parse_line s l).current = (parse_line t l).current := by
  unfold parse_line
  rw [← h]
  cases diagMatch l with
  | some g => rfl
  | none =>
    cases hc : s.current with
    | some d => simp
    | none => simpa using h

/-- Replay lemma: running the parser over the same lines from a state `t`
whose in-flight diagnostic agrees with `s` and whose deduplication set
covers everything a run from `s` would collect changes neither the unique
list nor the set — every finalized diagnostic is a known duplicate. -/
theorem second_pass (lines : List (List Char)) :
    ∀ (s t : PState), s.current = t.current →
    (∀ e, essMem e (parse_lines_run s lines).dedup.set = true →
      essMem e t.dedup.set = true) →
    (parse_lines_run t lines).uniq = t.uniq ∧
    (parse_lines_run t lines).dedup = t.dedup := by
  induction lines with
  | nil =>
    intro s t hcur hsub
    cases hc : t.current with
    | none =>
      constructor <;> simp [parse_lines_run, runLines, register_diag, hc]
    | some d =>
      have hs : s.current = some d := by rw [hcur, hc]
      have hm : essMem d.get_essence t.dedup.set = true := by
        apply hsub
        simp only [parse_lines_run, runLines, List.foldl_nil]
        exact register_diag_mem s d hs
      have hnoop := register_diag_of_mem t d hc hm
      simp only [parse_lines_run, runLines, List.foldl_nil, hnoop]
      constructor <;> trivial
  | cons l ls ih =>
    intro s t hcur hsub
    have hstep : parse_lines_run s (l :: ls) =
        parse_lines_run (parse_line s (rstrip l)) ls := by
      simp [parse_lines_run, runLines]
    have hstept : parse_lines_run t (l :: ls) =
        parse_lines_run (parse_line t (rstrip l)) ls := by
      simp [parse_lines_run, runLines]
    have hcur' : (parse_line s (rstrip l)).current =
        (parse_line t (rstrip l)).current :=
      parse_line_current_congr s t _ hcur
    have hsub' : ∀ e,
        essMem e (parse_lines_run (parse_line s (rstrip l)) ls).dedup.set
          = true →
        essMem e (parse_line t (rstrip l)).dedup.set = true := by
      intro e he
      have h1 : essMem e (parse_lines_run s (l :: ls)).dedup.set = true := by
        rw [hstep]; exact he
      exact parse_line_mono _ _ _ (hsub e h1)
    have hpres : (parse_line t (rstrip l)).uniq = t.uniq ∧
        (parse_line t (rstrip l)).dedup = t.dedup := by
      cases hmatch : diagMatch (rstrip l) with
      | none =>
        unfold parse_line
        rw [hmatch]
        cases hc : t.current with
        | some d => exact ⟨rfl, rfl⟩
        | none => exact ⟨rfl, rfl⟩
      | some g =>
        have hnoop : register_diag t = t := by
          cases hc : t.current with
          | none => unfold register_diag; rw [hc]
          | some d =>
            have hs2 : s.current = some d := by rw [hcur, hc]
            have hmem : essMem d.get_essence t.dedup.set = true := by
              apply hsub
              rw [hstep]
              apply parse_lines_run_mono
              unfold parse_line
              rw [hmatch]
              exact register_diag_mem s d hs2
            exact register_diag_of_mem t d hc hmem
        unfold parse_line
        rw [hmatch]
        simp only [hnoop]
        constructor <;> trivial
    have hmain := ih (parse_line s (rstrip l)) (parse_line t (rstrip l))
      hcur' hsub'
    rw [hstept]
    exact ⟨hmain.1.trans hpres.1, hmain.2.trans hpres.2⟩

/-- C2: feeding the identical multi-line diagnostic blob twice through one
single-invocation parser instance, with a reset call (`resetParser`) between the
two `parse_string` calls, yields zero diagnostics in the results list
after the second pass. -/
theorem c2_idempotent_dedup (input : List Char) :
    ∃ s1 s2, parse_string_exc initParser input = Except.ok s1 ∧
      parse_string_exc (resetParser s1) input = Except.ok s2 ∧
      s2.uniq = [] := by
  refine ⟨parse_string_run initParser input,
    parse_string_run (resetParser (parse_string_run initParser input))
      input, rfl, rfl, ?_⟩
  have h := second_pass (splitlines input) initParser
    (resetParser (parse_string_run initParser input)) rfl
    (fun e he => he)
  exact h.1

/-- C6: applying the reset method (`resetParser`) empties the unique-diagnostics list and clears the
in-flight diagnostic, and leaves the deduplication set untouched. -/
theorem c6_reset_frame (st : PState) :
    (resetParser st).uniq = [] ∧ (resetParser st).current = none ∧
      (resetParser st).dedup = st.dedup :=
  ⟨rfl, rfl, rfl⟩

/-- Rendering after an appended line: the newline and the line end up at
the end of the rendered text. -/
theorem render_add_additional_line (d : Diagnostic) (l : List Char) :
    (d.add_additional_line l).render = d.render ++ '\n' :: l := by
  simp [Diagnostic.render, Diagnostic.add_additional_line]

/-- Folding a list of additional lines appends each, newline-separated,
to the rendered text. -/
theorem render_foldl_additional (ls : List (List Char)) :
    ∀ d : Diagnostic,
    (ls.foldl Diagnostic.add_additional_line d).render =
      d.render ++ (ls.map (fun l => '\n' :: l)).flatten := by
  induction ls with
  | nil => intro d; simp
  | cons l ls ih =>
    intro d
    simp only [List.foldl_cons, List.map_cons, List.flatten_cons, ih,
      render_add_additional_line, List.append_assoc]

/-- C7: a `Diagnostic` grows its additional text one line at a time,
newline-joined, and the rendered text is the header line
`path:line:col: diag` followed by each additional line preceded by a
newline. -/
theorem c7_additional_lines_render (p : List Char) (ln col : Nat)
    (dg : List Char) (ls : List (List Char)) :
    (ls.foldl Diagnostic.add_additional_line
        { path := p, line := ln, column := col, diag := dg,
          additional := [] }).render =
      (p ++ ':' :: (natRepr ln ++ ':' ::
        (natRepr col ++ ':' :: ' ' :: dg))) ++
        (ls.map (fun l => '\n' :: l)).flatten := by
  rw [render_foldl_additional]
  simp [Diagnostic.render]

/-- C8: calling the ingestion entrypoints while a diagnostic from a prior
call is still held fails with the assertion error; with no prior
diagnostic held, ingestion proceeds and returns the parsed state. -/
theorem c8_reentrant_assert (st : PState) (lines : List (List Char))
    (input : List Char) :
    (st.current.isSome = true →
      parse_lines_exc st lines = Except.error cleanStateMsg ∧
      parse_string_exc st input = Except.error cleanStateMsg) ∧
    (st.current = none →
      parse_lines_exc st lines = Except.ok (parse_lines_run st lines) ∧
      parse_string_exc st input = Except.ok (parse_string_run st input)) := by
  constructor
  · intro h
    constructor <;> simp [parse_lines_exc, parse_string_exc, h]
  · intro h
    constructor <;>
      simp [parse_lines_exc, parse_string_exc, parse_string_run, h]

/-- C4: two fingerprints are equal exactly when all five stored components
(path hash, line, column, first-line hash, additional-text hash) match;
in particular two fingerprints built from inputs differing only in the
line number, only in the column number, or only in the path are unequal. -/
theorem c4_fingerprint_equality (p1 p2 : List Char) (l1 c1 l2 c2 : Int)
    (d1 a1 d2 a2 : List Char) :
    (essEq (mkEssence p1 l1 c1 d1 a1) (mkEssence p2 l2 c2 d2 a2) = true ↔
      (pyStrHash p1 = pyStrHash p2 ∧ l1 = l2 ∧ c1 = c2 ∧
        pyStrHash d1 = pyStrHash d2 ∧ pyStrHash a1 = pyStrHash a2)) ∧
    (l1 ≠ l2 →
      essEq (mkEssence p1 l1 c1 d1 a1) (mkEssence p1 l2 c1 d1 a1) = false) ∧
    (c1 ≠ c2 →
      essEq (mkEssence p1 l1 c1 d1 a1) (mkEssence p1 l1 c2 d1 a1) = false) ∧
    (p1 ≠ p2 →
      essEq (mkEssence p1 l1 c1 d1 a1) (mkEssence p2 l1 c1 d1 a1) = false) := by
  refine ⟨?_, ?_, ?_, ?_⟩
  · simp only [essEq, mkEssence, Bool.and_eq_true, beq_iff_eq]
    tauto
  · intro h
    simp [essEq, mkEssence, h]
  · intro h
    simp [essEq, mkEssence, h]
  · intro h
    have hh : pyStrHash p1 ≠ pyStrHash p2 := fun he => h (pyStrHash_injective he)
    simp [essEq, mkEssence, hh]

/-- Closed instance of C4: concrete fingerprints differing only in line,
only in column, and only in path are unequal, while two identically built
fingerprints satisfy the component-wise characterisation. -/
theorem c4_fingerprint_equality_witness :
    essEq (mkEssence (chars ("/f.h")) 3 7 (chars ("warning: w")) [])
      (mkEssence (chars ("/f.h")) 4 7 (chars ("warning: w")) []) = false ∧
    essEq (mkEssence (chars ("/f.h")) 3 7 (chars ("warning: w")) [])
      (mkEssence (chars ("/f.h")) 3 8 (chars ("warning: w")) []) = false ∧
    essEq (mkEssence (chars ("/f.h")) 3 7 (chars ("warning: w")) [])
      (mkEssence (chars ("/g.h")) 3 7 (chars ("warning: w")) []) = false := by
  refine ⟨?_, ?_, ?_⟩
  · exact (c4_fingerprint_equality (chars ("/f.h")) (chars ("/f.h")) 3 7 4 7
      (chars ("warning: w")) [] (chars ("warning: w")) []).2.1 (by decide)
  · exact (c4_fingerprint_equality (chars ("/f.h")) (chars ("/f.h")) 3 7 3 8
      (chars ("warning: w")) [] (chars ("warning: w")) []).2.2.1 (by decide)
  · exact (c4_fingerprint_equality (chars ("/f.h")) (chars ("/g.h")) 3 7 3 7
      (chars ("warning: w")) [] (chars ("warning: w")) []).2.2.2 (by decide)

/-- C5: fingerprints built with identical path, line and column but
different first-line text or different additional text have equal hashes
but are unequal. -/
theorem c5_hash_collision_tolerance (p : List Char) (l c : Int)
    (d1 a1 d2 a2 : List Char) (h : d1 ≠ d2 ∨ a1 ≠ a2) :
    (mkEssence p l c d1 a1).hashv = (mkEssence p l c d2 a2).hashv ∧
    essEq (mkEssence p l c d1 a1) (mkEssence p l c d2 a2) = false := by
  constructor
  · rfl
  · rcases h with h | h
    · have hh : pyStrHash d1 ≠ pyStrHash d2 :=
        fun he => h (pyStrHash_injective he)
      simp [essEq, mkEssence, hh]
    · have hh : pyStrHash a1 ≠ pyStrHash a2 :=
        fun he => h (pyStrHash_injective he)
      simp [essEq, mkEssence, hh]

/-- Closed instance of C5: same location, different message text gives
equal hashes but unequal fingerprints. -/
theorem c5_hash_collision_tolerance_witness :
    (mkEssence (chars ("/f.h")) 24 4 (chars ("warning: one")) []).hashv =
      (mkEssence (chars ("/f.h")) 24 4 (chars ("warning: two")) []).hashv ∧
    essEq (mkEssence (chars ("/f.h")) 24 4 (chars ("warning: one")) [])
      (mkEssence (chars ("/f.h")) 24 4 (chars ("warning: two")) []) = false :=
  c5_hash_collision_tolerance (chars ("/f.h")) 24 4
    (chars ("warning: one")) [] (chars ("warning: two")) []
    (Or.inl (by decide))

/-- C10: the fingerprint hash only depends on the sum of path hash, line
and column: trading `k` from the column to the line keeps the hash and
breaks equality. -/
theorem c10_hash_depends_on_sum (p : List Char) (l c k : Int)
    (d a : List Char) (hk : 0 < k) (_hkc : k ≤ c) :
    (mkEssence p (l + k) (c - k) d a).hashv = (mkEssence p l c d a).hashv ∧
    essEq (mkEssence p (l + k) (c - k) d a) (mkEssence p l c d a) = false := by
  constructor
  · simp only [mkEssence]
    have : pyStrHash p + (l + k) + (c - k) = pyStrHash p + l + c := by ring
    rw [this]
  · have hne : l + k ≠ l := by omega
    simp [essEq, mkEssence, hne]

/-- Closed instance of C10: moving 2 from the column to the line keeps
the hash and breaks equality. -/
theorem c10_hash_depends_on_sum_witness :
    (mkEssence (chars ("/f.h")) (10 + 2) (5 - 2) (chars ("warning: w"))
        []).hashv =
      (mkEssence (chars ("/f.h")) 10 5 (chars ("warning: w")) []).hashv ∧
    essEq (mkEssence (chars ("/f.h")) (10 + 2) (5 - 2) (chars ("warning: w"))
        [])
      (mkEssence (chars ("/f.h")) 10 5 (chars ("warning: w")) []) = false :=
  c10_hash_depends_on_sum (chars ("/f.h")) 10 5 2 (chars ("warning: w")) []
    (by decide) (by decide)

/-- Source `expectChar` consumes exactly the expected character. -/
theorem expectChar_sound {c : Char} {l r : List Char}
    (h : expectChar c l = some r) : l = c :: r := by
  cases l with
  | nil => simp [expectChar] at h
  | cons x xs =>
    simp only [expectChar] at h
    split at h
    · rename_i hx
      injection h with h
      rw [hx, h]
    · exact absurd h (by simp)

/-- Source `takeDigits` splits off a non-empty prefix. -/
theorem takeDigits_sound {l d r : List Char}
    (h : takeDigits l = some (d, r)) : l = d ++ r ∧ d ≠ [] := by
  unfold takeDigits at h
  split at h
  · exact absurd h (by simp)
  · rename_i hne
    simp only [Option.some.injEq, Prod.mk.injEq] at h
    obtain ⟨rfl, rfl⟩ := h
    exact ⟨(List.takeWhile_append_dropWhile isDig l).symm, hne⟩

/-- Source `matchSev` consumes exactly the severity word and the `: `
separator. -/
theorem matchSev_sound {r sv m : List Char}
    (h : matchSev r = some (sv, m)) : r = sv ++ ':' :: ' ' :: m := by
  unfold matchSev at h
  split at h
  · rename_i hp
    rw [ List.isPrefixOf_iff_prefix] at hp
    obtain ⟨t, ht⟩ := hp
    simp only [Option.some.injEq, Prod.mk.injEq] at h
    obtain ⟨rfl, rfl⟩ := h
    rw [← ht]
    rfl
  · split at h
    · rename_i hp
      rw [ List.isPrefixOf_iff_prefix] at hp
      obtain ⟨t, ht⟩ := hp
      simp only [Option.some.injEq, Prod.mk.injEq] at h
      obtain ⟨rfl, rfl⟩ := h
      rw [← ht]
      rfl
    · exact absurd h (by simp)

/-- Source `matchTail` reconstructs its input: a successful match decomposes the
text after the path group exactly as the header pattern prescribes. -/
theorem matchTail_sound {rest d1 d2 sv m : List Char}
    (h : matchTail rest = some (d1, d2, sv, m)) :
    rest = ':' :: (d1 ++ ':' :: (d2 ++ ':' :: ' ' ::
      (sv ++ ':' :: ' ' :: m))) := by
  unfold matchTail at h
  simp only [bind, Option.bind_eq_some] at h
  obtain ⟨r, hr, h⟩ := h
  obtain ⟨⟨e1, r1⟩, h1, h⟩ := h
  obtain ⟨r2, hr2, h⟩ := h
  obtain ⟨⟨e2, r3⟩, h2, h⟩ := h
  obtain ⟨r4, hr4, h⟩ := h
  obtain ⟨r5, hr5, h⟩ := h
  obtain ⟨⟨sv', m'⟩, hsev, h⟩ := h
  split at h
  · simp only [Option.some.injEq, Prod.mk.injEq] at h
    obtain ⟨rfl, rfl, rfl, rfl⟩ := h
    dsimp only at hr2 hr4
    obtain ⟨hsp, _⟩ := takeDigits_sound h1
    obtain ⟨hsp2, _⟩ := takeDigits_sound h2
    rw [expectChar_sound hr, hsp, expectChar_sound hr2, hsp2,
      expectChar_sound hr4, expectChar_sound hr5, matchSev_sound hsev]
  · exact absurd h (by simp)

/-- Every split produced by `splitsFrom` recombines to the full input. -/
theorem splitsFrom_spec :
    ∀ (suf pre : List Char) (pr : List Char × List Char),
    pr ∈ splitsFrom pre suf → pr.1 ++ pr.2 = pre ++ suf := by
  intro suf
  induction suf with
  | nil =>
    intro pre pr h
    simp only [splitsFrom, List.mem_singleton] at h
    subst h
    simp
  | cons c r ih =>
    intro pre pr h
    simp only [splitsFrom, List.mem_cons] at h
    rcases h with h | h
    · subst h
      simp
    · have := ih (pre ++ [c]) pr h
      simpa [List.append_assoc] using this

/-- A successful search comes from one of the candidate splits. -/
theorem searchSplits_sound {α : Type}
    (f : List Char → List Char → Option α) :
    ∀ (l : List (List Char × List Char)) (r : α),
    searchSplits f l = some r → ∃ pr ∈ l, f pr.1 pr.2 = some r := by
  intro l
  induction l with
  | nil =>
    intro r h
    exact absurd h (by simp [searchSplits])
  | cons pr0 more ih =>
    intro r h
    obtain ⟨p, s⟩ := pr0
    unfold searchSplits at h
    split at h
    · rename_i v hv
      injection h with h
      subst h
      exact ⟨(p, s), List.mem_cons_self _ _, hv⟩
    · obtain ⟨pr, hmem, hpr⟩ := ih r h
      exact ⟨pr, List.mem_cons_of_mem _ hmem, hpr⟩

/-- A successful header match decomposes the line exactly into
`path:line:col: severity: message`. -/
theorem diagMatch_sound {cs p d1 d2 sv m : List Char}
    (h : diagMatch cs = some (p, d1, d2, sv, m)) :
    cs = p ++ ':' :: (d1 ++ ':' :: (d2 ++ ':' :: ' ' ::
      (sv ++ ':' :: ' ' :: m))) ∧ p ≠ [] := by
  unfold diagMatch at h
  obtain ⟨pr, hmem, hpr⟩ := searchSplits_sound tryPathSplit _ _ h
  rw [List.mem_reverse] at hmem
  have hsplit : pr.1 ++ pr.2 = cs := by
    simpa using splitsFrom_spec cs [] pr hmem
  unfold tryPathSplit at hpr
  split at hpr
  · exact absurd hpr (by simp)
  · rename_i hne
    split at hpr
    · simp only [Option.map_eq_some'] at hpr
      obtain ⟨⟨g1, g2, g3, g4⟩, hg, hpr⟩ := hpr
      simp only [Prod.mk.injEq] at hpr
      obtain ⟨rfl, rfl, rfl, rfl, rfl⟩ := hpr
      constructor
      · rw [← hsplit, matchTail_sound hg]
      · exact hne
    · exact absurd hpr (by simp)

/-- C3 counterexample: the line `/a.h:01:2: warning: m ` (leading zero in
the line number, trailing space) matches the header pattern with all five
groups non-empty, yet parsing it and finalizing renders
`/a.h:1:2: warning: m`, which differs from the input line: `int()`
normalizes the leading zero away and ingestion strips the trailing
whitespace. -/
theorem c3_round_trip_counterexample :
    diagMatch (chars ("/a.h:01:2: warning: m ")) =
      some (chars ("/a.h"), chars ("01"), chars ("2"), chars ("warning"),
        chars ("m ")) ∧
    (parse_lines_run initParser
        [chars ("/a.h:01:2: warning: m ")]).uniq.map Diagnostic.render =
      [chars ("/a.h:1:2: warning: m")] ∧
    chars ("/a.h:1:2: warning: m") ≠ chars ("/a.h:01:2: warning: m ") := by
  refine ⟨by decide, by decide, by decide⟩

/-- C3 (amended): for a line matching the header pattern whose digit
groups are canonical decimal numerals and which carries no trailing
whitespace, parsing that single line and finalizing produces exactly one
diagnostic whose rendering is the original line. -/
theorem c3_round_trip_amended (cs p d1 d2 sv m : List Char)
    (h : diagMatch cs = some (p, d1, d2, sv, m))
    (hws : rstrip cs = cs)
    (h1 : natRepr (digitsVal d1) = d1)
    (h2 : natRepr (digitsVal d2) = d2) :
    (parse_lines_run initParser [cs]).uniq =
      [diag_from_match (p, d1, d2, sv, m)] ∧
    (diag_from_match (p, d1, d2, sv, m)).render = cs := by
  constructor
  · simp only [parse_lines_run, runLines, List.foldl_cons, List.foldl_nil,
      hws]
    unfold parse_line
    rw [h]
    simp [register_diag, initParser, Deduplication.insert_and_query, essMem]
  · unfold Diagnostic.render diag_from_match
    dsimp only
    rw [h1, h2, List.append_nil, (diagMatch_sound h).1]

/-- Closed instance of the amended C3 on a canonical line. -/
theorem c3_round_trip_amended_witness :
    (parse_lines_run initParser [chars ("/a.h:1:2: warning: m")]).uniq =
      [diag_from_match (chars ("/a.h"), chars ("1"), chars ("2"),
        chars ("warning"), chars ("m"))] ∧
    (diag_from_match (chars ("/a.h"), chars ("1"), chars ("2"),
      chars ("warning"), chars ("m"))).render =
      chars ("/a.h:1:2: warning: m") :=
  c3_round_trip_amended (chars ("/a.h:1:2: warning: m")) (chars ("/a.h"))
    (chars ("1")) (chars ("2")) (chars ("warning")) (chars ("m"))
    (by decide) (by decide) (by decide) (by decide)

/-- Modelled from the spec: the class `CheckDiagnostic` is referenced by
`utility.py` and its tests but its definition is not among the sources.
Per the spec (section 3, Check Diagnostic) it carries a severity, a source
location string, the diagnostic text, an optional check-name tag and the
accumulated code-hint lines.  (`ParseBBOutput.parse_line` passes the match
groups positionally, so for parsed diagnostics the `severity` slot holds
the location text of the line and `location` holds the severity word; the
model preserves that positional behaviour of the call sites.) -/
structure CheckDiagnostic where
  severity : List Char
  location : List Char
  text : List Char
  name : Option (List Char)
  hints : List Char
deriving DecidableEq, Repr

/-- Modelled from the spec: construction stores the four fields and no
hint lines yet. -/
def mkCheckDiagnostic (severity location text : List Char)
    (name : Option (List Char)) : CheckDiagnostic :=
  { severity := severity, location := location, text := text, name := name,
    hints := [] }

/-- Modelled from the spec: `add_code_hints` accumulates one hint line,
newline-terminated. -/
def CheckDiagnostic.add_code_hints (d : CheckDiagnostic)
    (line : List Char) : CheckDiagnostic :=
  { d with hints := d.hints ++ line ++ ['\n'] }

/-- Modelled from the spec: the one-line description
`location: severity: text [check-name]` (the bracketed tag only when a
check name is present). -/
def CheckDiagnostic.description (d : CheckDiagnostic) : List Char :=
  d.location ++ ':' :: ' ' :: (d.severity ++ ':' :: ' ' :: (d.text ++
    match d.name with
    | some n => ' ' :: '[' :: (n ++ [']'])
    | none => []))

/-- Modelled from the spec: the full text is the description followed by
the newline-terminated hint lines. -/
def CheckDiagnostic.full_text (d : CheckDiagnostic) : List Char :=
  d.description ++ '\n' :: d.hints

/-- Modelled from the spec: a `FindingDiagnostic` (Finding) is the ordered
sequence of one primary diagnostic plus its trailing notes. -/
structure FindingDiagnostic where
  diags : List CheckDiagnostic
deriving DecidableEq, Repr

/-- Modelled from the spec: a Finding starts from its primary
diagnostic. -/
def mkFinding (d : CheckDiagnostic) : FindingDiagnostic :=
  { diags := [d] }

/-- Modelled from the spec: `add_diagnostic` appends a trailing
diagnostic. -/
def FindingDiagnostic.add_diagnostic (f : FindingDiagnostic)
    (d : CheckDiagnostic) : FindingDiagnostic :=
  { diags := f.diags ++ [d] }

/-- Modelled from the spec: Finding identity is the concatenated full
text of all its diagnostics. -/
def FindingDiagnostic.full_text (f : FindingDiagnostic) : List Char :=
  (f.diags.map CheckDiagnostic.full_text).flatten

/-- Modelled from the spec: Finding equality compares the concatenated
full texts. -/
def findingEq (f g : FindingDiagnostic) : Bool :=
  f.full_text == g.full_text

/-- Modelled from the spec: the `Findings` registry maps a check name to
its total count and its set of unique findings (kept here as an ordered
association list; the unique list never stores two findings that compare
equal). -/
structure Findings where
  entries : List (List Char × Nat × List FindingDiagnostic)
deriving DecidableEq, Repr

/-- Modelled from the spec: `register_finding` increments the total count
of the check (creating the entry on first sight) and inserts the finding
into the unique set unless an equal one is already present. -/
def Findings.register_finding (fs : Findings) (check : List Char)
    (f : FindingDiagnostic) : Findings :=
  { entries := go fs.entries }
where
  go : List (List Char × Nat × List FindingDiagnostic) →
      List (List Char × Nat × List FindingDiagnostic)
    | [] => [(check, 1, [f])]
    | (c, n, u) :: rest =>
      if c = check then
        (c, n + 1, if u.any (findingEq f) then u else u ++ [f]) :: rest
      else (c, n, u) :: go rest

/-- Modelled from the spec: per-check total count, 0 for an unknown
check. -/
def Findings.total_finding_count (fs : Findings) (check : List Char) :
    Nat :=
  match fs.entries.find? (fun e => e.1 = check) with
  | some e => e.2.1
  | none => 0

/-- Modelled from the spec: per-check unique count, 0 for an unknown
check. -/
def Findings.unique_finding_count (fs : Findings) (check : List Char) :
    Nat :=
  match fs.entries.find? (fun e => e.1 = check) with
  | some e => e.2.2.length
  | none => 0

/-- The bracket group `(\[([^,]+).*\])?` of the aggregate pattern, given
the text `v` after the opening bracket: the group must extend to the end
of the line, the tag part takes greedily all characters up to a comma but
leaves at least the final closing bracket, and the `.*` part cannot cross
a newline.  Returns the tag group `([^,]+)`. -/
def bbBracket (v : List Char) : Option (List Char) :=
  if 1 ≤ min (v.takeWhile (fun c => c ≠ ',')).length (v.length - 1) ∧
      v.getLast? = some (']') ∧
      ((v.drop (min (v.takeWhile (fun c => c ≠ ',')).length
        (v.length - 1))).dropLast.all (fun c => c ≠ '\n')) then
    some (v.take (min (v.takeWhile (fun c => c ≠ ',')).length
      (v.length - 1)))
  else none

/-- The `([^\[]+) ?(\[([^,]+).*\])?$` tail of the aggregate pattern: the
message takes greedily every non-bracket character (keeping a trailing
space when a tag follows, as CPython does); a bracket, if any, must open
the tag group.  Returns the message and, optionally, the whole bracket
group together with the tag. -/
def bbTail (t : List Char) : Option (List Char × Option (List Char × List Char)) :=
  if (t.takeWhile (fun c => c ≠ '[')).isEmpty then none
  else
    match t.dropWhile (fun c => c ≠ '[') with
    | [] => some (t.takeWhile (fun c => c ≠ '['), none)
    | '[' :: v =>
      (bbBracket v).map
        (fun g5 => (t.takeWhile (fun c => c ≠ '['), some ('[' :: v, g5)))
    | _ :: _ => none

/-- The `(error|warning|note): ` alternation of the aggregate pattern. -/
def bbSev : List Char → Option (List Char × List Char)
  | 'e' :: 'r' :: 'r' :: 'o' :: 'r' :: ':' :: ' ' :: t =>
    some (chars ("error"), t)
  | 'w' :: 'a' :: 'r' :: 'n' :: 'i' :: 'n' :: 'g' :: ':' :: ' ' :: t =>
    some (chars ("warning"), t)
  | 'n' :: 'o' :: 't' :: 'e' :: ':' :: ' ' :: t =>
    some (chars ("note"), t)
  | _ => none

/-- One candidate split of the aggregate pattern
`^(.+): (error|warning|note): ([^\[]+) ?(\[([^,]+).*\])?$`: the leading
group must be non-empty and newline-free, then `: `, a severity, `: ` and
the tail. -/
def tryBBSplit (p rest : List Char) :
    Option (List Char × List Char × List Char ×
      Option (List Char × List Char)) :=
  if p = [] then none
  else if p.all (fun c => c ≠ '\n') then
    match rest with
    | ':' :: ' ' :: r2 =>
      match bbSev r2 with
      | some (sv, t) => (bbTail t).map (fun g => (p, sv, g.1, g.2))
      | none => none
    | _ => none
  else none

/-- Source `ParseBBOutput.__diagnostic_regex` applied with `re.match`: groups
(1: location text, 2: severity, 3: message, optional (4: bracket group,
5: tag)); the leading `(.+)` takes the longest viable prefix. -/
def bbMatch (cs : List Char) :
    Option (List Char × List Char × List Char ×
      Option (List Char × List Char)) :=
  searchSplits tryBBSplit (splitsFrom [] cs).reverse

/-- Source `ParseBBOutput.__known_ct_noise_output` applied with `re.match`
(prefix semantics): `Suppressed`, `Use -header-filter`, `clang-apply`, a
digit run followed by ` warnings`, or the empty line. -/
def bbNoise (line : List Char) : Bool :=
  (chars ("Suppressed")).isPrefixOf line ||
    (chars ("Use -header-filter")).isPrefixOf line ||
    (chars ("clang-apply")).isPrefixOf line ||
    (!(line.takeWhile isDig).isEmpty &&
      (chars (" warnings")).isPrefixOf (line.dropWhile isDig)) ||
    line.isEmpty

/-- Source `get_diagnostics()[-1].add_code_hints(line)`: attach a code-hint line
to the last diagnostic of a finding (a finding always holds at least its
primary diagnostic). -/
def FindingDiagnostic.add_hints_last (f : FindingDiagnostic)
    (line : List Char) : FindingDiagnostic :=
  match f.diags.getLast? with
  | some d => { diags := f.diags.dropLast ++ [d.add_code_hints line] }
  | none => f

/-- The state of one `ParseBBOutput` instance: the three expectation
flags, the accumulating finding with its check name, the ordered list of
enabled checks and the findings registry. -/
structure BBState where
  expectEnabled : Bool
  expectCheckName : Bool
  expectWarnings : Bool
  currentCheck : Option (List Char)
  currentFinding : Option FindingDiagnostic
  enabledChecks : List (List Char)
  findings : Findings
deriving DecidableEq, Repr

/-- Source `ParseBBOutput.__init__`. -/
def initBB : BBState :=
  { expectEnabled := true, expectCheckName := false,
    expectWarnings := false, currentCheck := none, currentFinding := none,
    enabledChecks := [], findings := { entries := [] } }

/-- Register the accumulating finding under its check name and clear the
accumulator.  The source asserts that the check name is present whenever
a finding is accumulating; the parser always sets both fields together,
so the `getD` default is never exercised. -/
def bbRegister (st : BBState) : BBState :=
  match st.currentFinding with
  | none => st
  | some f =>
    { st with
      findings := st.findings.register_finding (st.currentCheck.getD []) f
      currentFinding := none
      currentCheck := none }

/-- Source `ParseBBOutput.parse_line`: the finite-state machine over one line.
In the warnings state, a tagged match registers any accumulating finding
and starts a new one (the guards on groups 1-3 of the source are always
true because the matcher only succeeds with those groups non-empty, so
the tagged case is decided by the presence of the bracket group alone); a
tagless match appends a note to the accumulating finding; a noise line
registers the accumulating finding; anything else is a code hint for the
last diagnostic of the accumulating finding. -/
def bbParseLine (st : BBState) (line : List Char) : BBState :=
  if st.expectEnabled && line == chars ("Enabled checks:") then
    { st with expectEnabled := false, expectCheckName := true }
  else if st.expectCheckName then
    if !line.isEmpty then
      { st with enabledChecks := st.enabledChecks ++ [pstrip line] }
    else
      { st with expectCheckName := false, expectWarnings := true }
  else if (chars ("Applying fixes ...")).isPrefixOf line then st
  else if st.expectWarnings then
    match bbMatch line with
    | some (g1, g2, g3, tagOpt) =>
      match tagOpt with
      | some (_, g5) =>
        let st1 := bbRegister st
        { st1 with
          currentFinding :=
            some (mkFinding (mkCheckDiagnostic g1 g2 g3 (some g5)))
          currentCheck := some g5 }
      | none =>
        match st.currentFinding with
        | some f =>
          { st with
            currentFinding :=
              some (f.add_diagnostic (mkCheckDiagnostic g1 g2 g3 none)) }
        | none => st
    | none =>
      if bbNoise line then bbRegister st
      else
        match st.currentFinding with
        | some f => { st with currentFinding := some (f.add_hints_last line) }
        | none => st
  else st

/-- Source `ParseBBOutput.parse_lines` without its entry assertion. -/
def bb_parse_lines_run (st : BBState) (lines : List (List Char)) : BBState :=
  lines.foldl bbParseLine st

/-- The `parse_lines` entry assertion message. -/
def startStateMsg : String := "Not in start state"

/-- Source `ParseBBOutput.parse_lines` including its entry assertion. -/
def bb_parse_lines_exc (st : BBState) (lines : List (List Char)) :
    Except String BBState :=
  if st.expectEnabled then Except.ok (bb_parse_lines_run st lines)
  else Except.error startStateMsg

/-- Source `ParseBBOutput.parse_string` without the assertion: split into lines,
strip trailing whitespace from each, feed them to the machine. -/
def bb_parse_string_run (st : BBState) (input : List Char) : BBState :=
  bb_parse_lines_run st ((splitlines input).map rstrip)

/-- Source `ParseBBOutput.parse_string` including the `parse_lines` assertion. -/
def bb_parse_string_exc (st : BBState) (input : List Char) :
    Except String BBState :=
  bb_parse_lines_exc st ((splitlines input).map rstrip)

/-- The aggregate-log input of the C1 scenario: the enabled-checks
preamble, a tagged diagnostic, a noise line, the identical diagnostic
again and another noise line. -/
def c1Input : List Char :=
  chars ("Enabled checks:\ncheck-a\ncheck-b\n\n/file.h:1:2: warning: msg [check-a]\n1 warnings generated.\n/file.h:1:2: warning: msg [check-a]\n1 warnings generated.")

/-- C1: on the scenario input the aggregate parser ends with enabled
checks `[check-a, check-b]`, a total finding count of 2 for `check-a`
and a unique finding count of 1 for `check-a`. -/
theorem c1_aggregate_scenario :
    bb_parse_string_exc initBB c1Input =
      Except.ok (bb_parse_string_run initBB c1Input) ∧
    (bb_parse_string_run initBB c1Input).enabledChecks =
      [chars ("check-a"), chars ("check-b")] ∧
    (bb_parse_string_run initBB c1Input).findings.total_finding_count
      (chars ("check-a")) = 2 ∧
    (bb_parse_string_run initBB c1Input).findings.unique_finding_count
      (chars ("check-a")) = 1 := by
  refine ⟨rfl, by decide, by decide, by decide⟩

/-- A non-matching line with no diagnostic in flight leaves the
single-invocation parser state untouched. -/
theorem parse_line_noise (st : PState) (l : List Char)
    (h : diagMatch l = none) (hc : st.current = none) :
    parse_line st l = st := by
  unfold parse_line
  rw [h, hc]

/-- Noise-only input leaves the single-invocation parser in its starting
state. -/
theorem run_noise (ls : List (List Char)) :
    ∀ st : PState, (∀ l ∈ ls, diagMatch (rstrip l) = none) →
    st.current = none → runLines st ls = st := by
  induction ls with
  | nil => intro st _ _; rfl
  | cons l ls ih =>
    intro st hall hc
    have hstep : parse_line st (rstrip l) = st :=
      parse_line_noise st _ (hall l (by simp)) hc
    simp only [runLines, List.foldl_cons]
    rw [hstep]
    exact ih st (fun x hx => hall x (by simp [hx])) hc

/-- A line the aggregate pattern does not match never creates a finding
and never touches the registry. -/
theorem bbParseLine_noise (st : BBState) (l : List Char)
    (h : bbMatch l = none) (hc : st.currentFinding = none) :
    (bbParseLine st l).currentFinding = none ∧
    (bbParseLine st l).findings = st.findings := by
  unfold bbParseLine
  rw [h, hc]
  split_ifs <;> simp_all [bbRegister]

/-- Noise-only input keeps the aggregate parser free of findings. -/
theorem bb_run_noise (ls : List (List Char)) :
    ∀ st : BBState, (∀ l ∈ ls, bbMatch l = none) →
    st.currentFinding = none →
    (bb_parse_lines_run st ls).currentFinding = none ∧
    (bb_parse_lines_run st ls).findings = st.findings := by
  induction ls with
  | nil => intro st _ hc; exact ⟨hc, rfl⟩
  | cons l ls ih =>
    intro st hall hc
    have hstep := bbParseLine_noise st l (hall l (by simp)) hc
    have hrest := ih (bbParseLine st l)
      (fun x hx => hall x (by simp [hx])) hstep.1
    exact ⟨hrest.1, hrest.2.trans hstep.2⟩

/-- C9: feeding only lines that never match a header pattern to either
parser yields zero diagnostics and zero registered findings, and both
ingestion entrypoints return normally. -/
theorem c9_noise_only (ls1 ls2 : List (List Char))
    (h1 : ∀ l ∈ ls1, diagMatch (rstrip l) = none)
    (h2 : ∀ l ∈ ls2, bbMatch l = none) :
    parse_lines_exc initParser ls1 =
      Except.ok (parse_lines_run initParser ls1) ∧
    (parse_lines_run initParser ls1).uniq = [] ∧
    bb_parse_lines_exc initBB ls2 =
      Except.ok (bb_parse_lines_run initBB ls2) ∧
    (bb_parse_lines_run initBB ls2).findings = { entries := [] } := by
  refine ⟨rfl, ?_, rfl, ?_⟩
  · have hr := run_noise ls1 initParser h1 rfl
    simp only [parse_lines_run, hr]
    rfl
  · exact (bb_run_noise ls2 initBB h2 rfl).2

/-- Closed instance of C9 on a concrete garbage line. -/
theorem c9_noise_only_witness :
    (parse_lines_run initParser
      [chars ("garbage, not a diagnostic")]).uniq = [] ∧
    (bb_parse_lines_run initBB
      [chars ("garbage, not a diagnostic")]).findings = { entries := [] } := by
  have h := c9_noise_only [chars ("garbage, not a diagnostic")]
    [chars ("garbage, not a diagnostic")] (by decide) (by decide)
  exact ⟨h.2.1, h.2.2.2⟩

/-- An example in-flight diagnostic for exercising the entry assertion. -/
def exDiag : Diagnostic :=
  { path := chars ("/f.h"), line := 1, column := 2,
    diag := chars ("warning: w"), additional := [] }

/-- A parser state still holding a diagnostic from a prior call. -/
def heldState : PState :=
  { current := some exDiag, dedup := { set := [] }, uniq := [] }

/-- Closed instance of C8: with a held diagnostic the entrypoint fails
with the assertion error, with a clean state it returns normally. -/
theorem c8_reentrant_assert_witness :
    parse_lines_exc heldState [] = Except.error cleanStateMsg ∧
    parse_lines_exc initParser [] =
      Except.ok (parse_lines_run initParser []) := by
  constructor
  · exact ((c8_reentrant_assert heldState [] []).1 rfl).1
  · exact ((c8_reentrant_assert initParser [] []).2 rfl).1
